import Mathlib

/-!
Verification development for the ZMK keymap alignment tool
(src/align_keymap.py of datapointchris/zmk-config).

Text is modelled as List Char.  Each definition mirrors one Python
function of the source; regular-expression operations of the source are
embedded as deterministic character scans that implement the same
leftmost-match semantics for the concrete patterns the source uses.
Character-class predicates are taken at ASCII scope (all inputs of the
tool are ASCII device-tree files).
-/

set_option maxRecDepth 200000

/-- Whitespace characters (ASCII scope): the characters on which Python
str.split() splits and which the regex class \s matches. -/
def isSpaceChar (c : Char) : Bool :=
  c = ' ' || c = '\t' || c = '\n' || c = '\r' || c = '\x0b' || c = '\x0c'

/-- Word characters, regex class \w (ASCII scope). -/
def isWordChar (c : Char) : Bool :=
  c.isAlpha || c.isDigit || c = '_'

theorem dropWhileLen {α : Type} (p : α → Bool) (l : List α) :
    (l.dropWhile p).length ≤ l.length := by
  induction l with
  | nil => simp
  | cons a l ih =>
    rw [List.dropWhile_cons]
    split
    · exact Nat.le_succ_of_le ih
    · simp

/-- State machine embedding re.sub of the line-comment pattern
(MULTILINE).  States: 0 normal, 1 a slash is pending, 2 inside a line
comment.  Two consecutive slashes start a comment; in a comment,
characters are dropped up to but not including the next newline. -/
def slcGo : List Char → Nat → List Char
  | [], st => if st = 1 then ['/'] else []
  | c :: cs, st =>
    if st = 2 then (if c = '\n' then c :: slcGo cs 0 else slcGo cs 2)
    else if st = 1 then (if c = '/' then slcGo cs 2 else '/' :: c :: slcGo cs 0)
    else (if c = '/' then slcGo cs 1 else c :: slcGo cs 0)

/-- Embeds re.sub of the pattern matching a double slash followed by the
rest of the line (MULTILINE): from each occurrence of two consecutive
slashes, delete up to but not including the next newline. -/
def stripLineComments (s : List Char) : List Char := slcGo s 0

/-- Scans for the first closing star-slash of a block comment, returning
the remainder after it. -/
def findBlockClose : List Char → Option (List Char)
  | [] => none
  | c :: cs =>
    if c = '*' ∧ cs.head? = some '/' then some cs.tail
    else findBlockClose cs

/-- State machine embedding re.sub of the lazy block-comment pattern
(DOTALL).  States: 0 normal, 1 a slash is pending, 2 inside a block
comment, 3 inside a block comment with a star pending.  A slash-star
that has a later star-slash starts a comment dropped through its first
star-slash; a slash-star with no later star-slash is left in place with
the whole remaining text, as re.sub leaves it unmatched and no later
opener can have a closer either. -/
def sbcGo : List Char → Nat → List Char
  | [], st => if st = 1 then ['/'] else []
  | c :: cs, st =>
    if st = 3 then
      (if c = '/' then sbcGo cs 0 else if c = '*' then sbcGo cs 3 else sbcGo cs 2)
    else if st = 2 then
      (if c = '*' then sbcGo cs 3 else sbcGo cs 2)
    else if st = 1 then
      (if c = '*' then
        (if (findBlockClose cs).isSome then sbcGo cs 2 else '/' :: '*' :: cs)
      else if c = '/' then '/' :: sbcGo cs 1
      else '/' :: c :: sbcGo cs 0)
    else
      (if c = '/' then sbcGo cs 1 else c :: sbcGo cs 0)

/-- Embeds re.sub of the lazy block-comment pattern: remove each leftmost
slash-star through the nearest following star-slash. -/
def stripBlockComments (s : List Char) : List Char := sbcGo s 0

/-- Accumulator loop for Python str.split(): cur holds the current word
reversed. -/
def pyWordsAux : List Char → List Char → List (List Char)
  | cur, [] => if cur.isEmpty then [] else [cur.reverse]
  | cur, c :: cs =>
    if isSpaceChar c then
      if cur.isEmpty then pyWordsAux [] cs else cur.reverse :: pyWordsAux [] cs
    else pyWordsAux (c :: cur) cs

/-- Python str.split() with no separator: split on whitespace runs,
dropping empty fields. -/
def pyWords (s : List Char) : List (List Char) := pyWordsAux [] s

/-- Python str.rstrip applied with the two characters greater-than and
semicolon: remove any trailing run of those characters. -/
def rstripGtSemi (t : List Char) : List Char :=
  ((t.reverse).dropWhile (fun c => c = '>' || c = ';')).reverse

/-- The token list built inside extract_bindings_from_content: split the
comment-stripped text on whitespace, right-strip each token, drop tokens
that become empty. -/
def tokenize (content : List Char) : List (List Char) :=
  (pyWords content).filterMap (fun t =>
    let r := rstripGtSemi t
    if r.isEmpty then none else some r)

/-- MULTI_PARAM_BEHAVIORS of the source. -/
def MULTI_PARAM_BEHAVIORS : List (List Char) :=
  ["&hmr".toList, "&hml".toList, "&hmrt".toList, "&hmlt".toList,
   "&ltl".toList, "&ltr".toList, "&td".toList]

/-- behavior_param_rules of _handle_multi_param_behavior, with the
source's default of a single-entry list holding 2. -/
def behaviorParamRules (b : List Char) : List Nat :=
  if b = "&hmr".toList then [1, 2]
  else if b = "&hml".toList then [1, 2]
  else if b = "&hmrt".toList then [1, 2]
  else if b = "&hmlt".toList then [1, 2]
  else if b = "&ltl".toList then [2]
  else if b = "&ltr".toList then [2]
  else if b = "&td".toList then [1, 2]
  else [2]

/-- max over the (nonempty, positive) parameter-rule list. -/
def maxParamsFor (b : List Char) : Nat := (behaviorParamRules b).foldl max 0

/-- The behaviors allowed to take a nested behavior as second parameter. -/
def nestedSecondBehaviors : List (List Char) :=
  ["&hmr".toList, "&hml".toList, "&hmrt".toList, "&hmlt".toList]

/-- Python str.startswith with the ampersand sigil. -/
def startsWithAmp : List Char → Bool
  | '&' :: _ => true
  | _ => false

/-- Fueled while loop of _handle_multi_param_behavior; every step
consumes at least one token, so fuel equal to the token count never runs
out.  Returns the consumed parameter tokens and the remaining stream. -/
def multiLoopGo (b : List Char) : Nat → List (List Char) → Nat → List (List Char) × List (List Char)
  | 0, ts, _ => ([], ts)
  | _ + 1, [], _ => ([], [])
  | fuel + 1, t :: rest, pc =>
    if pc < maxParamsFor b then
      if startsWithAmp t then
        if pc = 0 ∨ (pc = 1 ∧ b ∈ nestedSecondBehaviors) then
          match rest with
          | u :: rest2 =>
            if pc + 1 < maxParamsFor b ∧ startsWithAmp u = false then
              let pr := multiLoopGo b fuel rest2 (pc + 2)
              (t :: u :: pr.1, pr.2)
            else
              let pr := multiLoopGo b fuel rest (pc + 1)
              (t :: pr.1, pr.2)
          | [] => ([t], [])
        else ([], t :: rest)
      else
        let pr := multiLoopGo b fuel rest (pc + 1)
        (t :: pr.1, pr.2)
    else ([], t :: rest)

/-- Embeds the while loop of _handle_multi_param_behavior. -/
def multiLoop (b : List Char) (ts : List (List Char)) (pc : Nat) :
    List (List Char) × List (List Char) :=
  multiLoopGo b ts.length ts pc

theorem multiLoopGo_rem_length (b : List Char) :
    ∀ (fuel : Nat) (ts : List (List Char)) (pc : Nat),
      ((multiLoopGo b fuel ts pc).2).length ≤ ts.length := by
  intro fuel
  induction fuel with
  | zero => intro ts pc; simp [multiLoopGo]
  | succ f ih =>
    intro ts pc
    match ts with
    | [] => simp [multiLoopGo]
    | t :: rest =>
      simp only [multiLoopGo]
      split
      · split
        · split
          · split
            · rename_i rest0 u rest2
              split
              · have := ih rest2 (pc + 2)
                simp at this ⊢
                omega
              · have := ih (u :: rest2) (pc + 1)
                simp at this ⊢
                omega
            · simp
          · simp
        · have := ih rest (pc + 1)
          simp at this ⊢
          omega
      · simp

theorem multiLoop_rem_length (b : List Char) (ts : List (List Char)) (pc : Nat) :
    ((multiLoop b ts pc).2).length ≤ ts.length :=
  multiLoopGo_rem_length b ts.length ts pc

/-- Space-joined binding string (the Python " ".join). -/
def joinSp : List (List Char) → List Char
  | [] => []
  | [w] => w
  | w :: ws => w ++ ' ' :: joinSp ws

/-- Fueled loop of _parse_tokens_into_bindings; every step consumes at
least one token, so fuel equal to the token count never runs out
(multiLoop_rem_length bounds the remaining stream). -/
def parseTokensGo : Nat → List (List Char) → List (List Char)
  | 0, _ => []
  | _ + 1, [] => []
  | fuel + 1, t :: rest =>
    if startsWithAmp t then
      let behavior := t.map Char.toLower
      if behavior ∈ MULTI_PARAM_BEHAVIORS then
        let pr := multiLoop behavior rest 0
        joinSp (t :: pr.1) :: parseTokensGo fuel pr.2
      else
        joinSp (t :: rest.takeWhile (fun x => !startsWithAmp x)) ::
          parseTokensGo fuel (rest.dropWhile (fun x => !startsWithAmp x))
    else parseTokensGo fuel rest

/-- Embeds _parse_tokens_into_bindings: group the flat token stream into
binding strings; a non-sigil token in head position is discarded. -/
def parseTokens (ts : List (List Char)) : List (List Char) :=
  parseTokensGo ts.length ts

/-- Embeds extract_bindings_from_content: strip line comments, then block
comments, tokenize, group into bindings.  The empty content returns the
empty list through the falsiness guard of the source. -/
def extract_bindings_from_content (s : List Char) : List (List Char) :=
  if s.isEmpty then []
  else parseTokens (tokenize (stripBlockComments (stripLineComments s)))

/-- Embeds one attempt of the finditer layer pattern at the current
suffix: word-run name, optional whitespace, opening brace, optional
whitespace, the literal bindings, equals and opening angle bracket with
optional whitespace, a nonempty run of non-gt characters as content, the
closing angle bracket, optional whitespace, semicolon.  Backtracking is
not needed for this pattern because the character classes of adjacent
greedy pieces are disjoint from the literals that follow them. -/
def matchLayerAt (s : List Char) : Option (List Char × List Char × List Char) :=
  let name := s.takeWhile isWordChar
  if name.isEmpty then none
  else
    match (s.dropWhile isWordChar).dropWhile isSpaceChar with
    | '\x7b' :: r3 =>
      let r4 := r3.dropWhile isSpaceChar
      if "bindings".toList.isPrefixOf r4 then
        match (r4.drop 8).dropWhile isSpaceChar with
        | '=' :: r7 =>
          match r7.dropWhile isSpaceChar with
          | '<' :: r9 =>
            let content := r9.takeWhile (fun c => c != '>')
            if content.isEmpty then none
            else
              match r9.dropWhile (fun c => c != '>') with
              | '>' :: r10 =>
                match r10.dropWhile isSpaceChar with
                | ';' :: r11 => some (name, content, r11)
                | _ => none
              | _ => none
          | _ => none
        | _ => none
      else none
    | _ => none

theorem matchLayerAt_length {s n c rest : List Char}
    (h : matchLayerAt s = some (n, c, rest)) : rest.length < s.length := by
  simp only [matchLayerAt] at h
  split at h
  · exact absurd h (by simp)
  · repeat' split at h
    all_goals cases h
    rename_i h1 x1 r3 heq3 hpre x2 r7 heq7 x3 r9 heq9 hne x4 r10 heq10 x5 heq11
    have e3 := congrArg List.length heq3
    have e7 := congrArg List.length heq7
    have e9 := congrArg List.length heq9
    have e10 := congrArg List.length heq10
    have e11 := congrArg List.length heq11
    have d1 := dropWhileLen isWordChar s
    have d2 := dropWhileLen isSpaceChar (List.dropWhile isWordChar s)
    have d3 := dropWhileLen isSpaceChar r3
    have d4 := dropWhileLen isSpaceChar (List.drop 8 (List.dropWhile isSpaceChar r3))
    have d5 := dropWhileLen isSpaceChar r7
    have d6 := dropWhileLen (fun c => c != '>') r9
    have d7 := dropWhileLen isSpaceChar r10
    have ld := List.length_drop 8 (List.dropWhile isSpaceChar r3)
    simp at e3 e7 e9 e10 e11
    omega

/-- Fueled scan of re.finditer over the layer pattern; every step
consumes at least one character (matchLayerAt_length), so fuel equal to
the text length never runs out. -/
def scanLayersGo : Nat → List Char → List (List Char × List Char)
  | 0, _ => []
  | _ + 1, [] => []
  | fuel + 1, d :: tail =>
    match matchLayerAt (d :: tail) with
    | some (n, c, rest) => (n, c) :: scanLayersGo fuel rest
    | none => scanLayersGo fuel tail

/-- Embeds re.finditer over the layer pattern: scan start positions left
to right, emit each match and continue after its end. -/
def scanLayers (s : List Char) : List (List Char × List Char) :=
  scanLayersGo s.length s

/-- Python dict assignment d[k] = v: replace the value at an existing key
in place, else append the new pair. -/
def upsertLayer {α : Type} (m : List (List Char × α)) (k : List Char) (v : α) :
    List (List Char × α) :=
  if m.any (fun p => p.1 == k) then
    m.map (fun p => if p.1 == k then (k, v) else p)
  else m ++ [(k, v)]

/-- Embeds extract_all_layers: run the pattern scan over the whole source
and tokenize each matched content, building an insertion-ordered,
last-occurrence-wins mapping. -/
def extract_all_layers (content : List Char) : List (List Char × List (List Char)) :=
  (scanLayers content).foldl
    (fun m nc => upsertLayer m nc.1 (extract_bindings_from_content nc.2)) []

/-- JSON scalar values that can appear as layout-matrix cells. -/
inductive JVal where
  | jstr (s : List Char)
  | jnum (n : Int)
  | jbool (b : Bool)
  | jnull
deriving DecidableEq

/-- The source's cell comparison cell == "X": Python equality of a
JSON-loaded value with the string "X", true exactly for that string. -/
def cellIsX : JVal → Bool
  | .jstr s => s == "X".toList
  | _ => false

/-- One row of build_layer_structure; idx is the running binding index of
the source's loop. -/
def placeRow (bindings : List (List Char)) :
    List JVal → Nat → List (Option (List Char)) × Nat
  | [], idx => ([], idx)
  | cell :: cells, idx =>
    if cellIsX cell then
      match bindings[idx]? with
      | some b =>
        let pr := placeRow bindings cells (idx + 1)
        (some b :: pr.1, pr.2)
      | none =>
        let pr := placeRow bindings cells idx
        (none :: pr.1, pr.2)
    else
      let pr := placeRow bindings cells idx
      (none :: pr.1, pr.2)

/-- All rows of build_layer_structure for one layer, threading the
binding index across rows. -/
def placeRows (bindings : List (List Char)) :
    List (List JVal) → Nat → List (List (Option (List Char))) × Nat
  | [], idx => ([], idx)
  | row :: rows, idx =>
    let pr := placeRow bindings row idx
    let ps := placeRows bindings rows pr.2
    (pr.1 :: ps.1, ps.2)

/-- The grid build_layer_structure derives for one layer. -/
def structLayer (bindings : List (List Char)) (matrix : List (List JVal)) :
    List (List (Option (List Char))) :=
  (placeRows bindings matrix 0).1

/-- Embeds build_layer_structure: per layer, walk the layout matrix and
place the layer's bindings in order at the cells equal to "X". -/
def build_layer_structure (layers : List (List Char × List (List Char)))
    (matrix : List (List JVal)) :
    List (List Char × List (List (Option (List Char)))) :=
  layers.map (fun p => (p.1, structLayer p.2 matrix))

/-- Column count: the length of the first layout row (0 for an empty
matrix), as in the source. -/
def numColumns (matrix : List (List JVal)) : Nat :=
  match matrix with
  | [] => 0
  | r :: _ => r.length

/-- One structured row of the width loop of calculate_column_widths:
fold max binding lengths into the width table; indexing a column at or
beyond the table's length is the Python IndexError, modelled as error. -/
def updateRow : List Nat → List (Option (List Char)) → Nat → Except Unit (List Nat)
  | ws, [], _ => .ok ws
  | ws, none :: rest, col => updateRow ws rest (col + 1)
  | ws, some b :: rest, col =>
    match ws[col]? with
    | none => .error ()
    | some w => updateRow (ws.set col (max w b.length)) rest (col + 1)

/-- The width loop over one layer's rows. -/
def updateGrid : List Nat → List (List (Option (List Char))) → Except Unit (List Nat)
  | ws, [] => .ok ws
  | ws, row :: rows =>
    match updateRow ws row 0 with
    | .error e => .error e
    | .ok ws2 => updateGrid ws2 rows

/-- The width loop over all layers. -/
def updateLayers : List Nat →
    List (List Char × List (List (Option (List Char)))) → Except Unit (List Nat)
  | ws, [] => .ok ws
  | ws, p :: ps =>
    match updateGrid ws p.2 with
    | .error e => .error e
    | .ok ws2 => updateLayers ws2 ps

/-- Embeds calculate_column_widths: start from a zero table sized by the
first layout row, take the max binding length per column over every
layer and row, then add the padding to every column. -/
def calculate_column_widths (structured : List (List Char × List (List (Option (List Char)))))
    (matrix : List (List JVal)) (padding : Nat) : Except Unit (List Nat) :=
  match updateLayers (List.replicate (numColumns matrix) 0) structured with
  | .error e => .error e
  | .ok ws => .ok (ws.map (· + padding))

/-- Python str.ljust with spaces. -/
def ljust (b : List Char) (w : Nat) : List Char :=
  b ++ List.replicate (w - b.length) ' '

/-- Python str.rstrip with no argument: drop trailing whitespace. -/
def rstripWs (l : List Char) : List Char :=
  (l.reverse.dropWhile isSpaceChar).reverse

/-- The per-cell loop of format_layer for one row: each placed binding is
left-justified to its column width, each absent cell becomes that many
spaces; width lookup out of range is the Python IndexError. -/
def formatRowGo (widths : List Nat) :
    List (Option (List Char)) → Nat → Except Unit (List Char)
  | [], _ => .ok []
  | cell :: rest, col =>
    match widths[col]? with
    | none => .error ()
    | some w =>
      match formatRowGo widths rest (col + 1) with
      | .error e => .error e
      | .ok rem =>
        match cell with
        | some b => .ok (ljust b w ++ rem)
        | none => .ok (List.replicate w ' ' ++ rem)

/-- One rendered row line: three spaces of base indentation, the cells,
then the trailing whitespace trimmed. -/
def formatRow (row : List (Option (List Char))) (widths : List Nat) :
    Except Unit (List Char) :=
  match formatRowGo widths row 0 with
  | .error e => .error e
  | .ok body => .ok (rstripWs ("   ".toList ++ body))

/-- Newline join, the Python "\n".join. -/
def joinNl : List (List Char) → List Char
  | [] => []
  | [l] => l
  | l :: ls => l ++ '\n' :: joinNl ls

/-- Split on the newline character, the Python str.split("\n"):
n separators yield n + 1 fields, empties kept. -/
def splitNl : List Char → List (List Char)
  | [] => [[]]
  | c :: cs =>
    if c = '\n' then [] :: splitNl cs
    else
      match splitNl cs with
      | w :: ws => (c :: w) :: ws
      | [] => [[c]]

/-- Embeds format_layer: header line with the layer name, the bindings
opener, one rendered line per matrix row, the closing lines, all joined
with newlines. -/
def format_layer (name : List Char) (rows : List (List (Option (List Char))))
    (widths : List Nat) : Except Unit (List Char) :=
  match rows.mapM (fun row => formatRow row widths) with
  | .error e => .error e
  | .ok rowLines =>
    .ok (joinNl (("        ".toList ++ name ++ " \x7b".toList) ::
      "            bindings = <".toList ::
      (rowLines ++ ["            >;".toList, "        \x7d;".toList])))

/-- Python substring containment: pat occurs contiguously in l. -/
def containsSub (pat : List Char) : List Char → Bool
  | [] => pat.isEmpty
  | l@(_ :: tail) => pat.isPrefixOf l || containsSub pat tail

/-- The substring test of the source: the line contains the keymap
opening marker. -/
def containsKeymapOpen (l : List Char) : Bool :=
  containsSub "keymap \x7b".toList l

/-- Index of the first line containing the keymap opening marker. -/
def keymapStartIdx (lines : List (List Char)) : Option Nat :=
  lines.findIdx? containsKeymapOpen

/-- Brace delta of one line: opening braces minus closing braces. -/
def braceDelta (l : List Char) : Int :=
  ((l.countP (fun c => c == '\x7b')) : Int) - ((l.countP (fun c => c == '\x7d')) : Int)

/-- Scan lines accumulating the brace count; return the offset of the
first line after which the count is zero. -/
def scanEnd : Int → List (List Char) → Option Nat
  | _, [] => none
  | cnt, l :: rest =>
    let c2 := cnt + braceDelta l
    if c2 = 0 then some 0
    else (scanEnd c2 rest).map (· + 1)

/-- Index of the keymap section's closing line: starting at the opening
line, add each line's brace delta; the first LATER line at which the
count returns to zero ends the section, as in the source. -/
def keymapEndIdx (lines : List (List Char)) (s : Nat) : Option Nat :=
  match lines.drop s with
  | [] => none
  | l :: rest => (scanEnd (braceDelta l) rest).map (fun k => s + 1 + k)

/-- The freshly generated keymap section: opening line, the fixed
compatibility declaration, every rendered layer block in extraction
order, closing line, joined with newlines. -/
def renderSection (structured : List (List Char × List (List (Option (List Char)))))
    (widths : List Nat) : Except Unit (List Char) :=
  match structured.mapM (fun p => format_layer p.1 p.2 widths) with
  | .error e => .error e
  | .ok blocks =>
    .ok (joinNl ("    keymap \x7b".toList ::
      "        compatible = \"zmk,keymap\";".toList ::
      (blocks ++ ["    \x7d;".toList])))

/-- Failure conditions of one alignment run (uncaught IndexError of the
width and format loops modelled as widthError and formatError). -/
inductive AlignError where
  | noLayers
  | widthError
  | noKeymapStart
  | noKeymapEnd
  | formatError
deriving DecidableEq

/-- Embeds the pure core of align_keymap_with_layout after the two file
reads (non-debug path): extract layers, build grids, compute widths,
locate the keymap section, render the replacement, and return the output
text that the run would write, or the failure aborting the run. -/
def alignContent (content : List Char) (layout : List (List JVal)) (padding : Nat) :
    Except AlignError (List Char) :=
  let layers := extract_all_layers content
  if layers.isEmpty then .error .noLayers
  else
    let structured := build_layer_structure layers layout
    match calculate_column_widths structured layout padding with
    | .error _ => .error .widthError
    | .ok widths =>
      let lines := splitNl content
      match keymapStartIdx lines with
      | none => .error .noKeymapStart
      | some s =>
        match keymapEndIdx lines s with
        | none => .error .noKeymapEnd
        | some e =>
          match renderSection structured widths with
          | .error _ => .error .formatError
          | .ok sec =>
            .ok (joinNl (lines.take s) ++ '\n' :: (sec ++ '\n' :: joinNl (lines.drop (e + 1))))

/-- The ok payload of an alignment run, if any. -/
def alignOut (r : Except AlignError (List Char)) : Option (List Char) :=
  match r with
  | .ok o => some o
  | .error _ => none

/-- The error of an alignment run, if any. -/
def alignErr (r : Except AlignError (List Char)) : Option AlignError :=
  match r with
  | .ok _ => none
  | .error e => some e

/-- The canonical active cell marker. -/
def cellX : JVal := .jstr "X".toList

/-- The canonical spacer marker. -/
def cellDash : JVal := .jstr "-".toList

/-- The ten-key test layout of the repository's test suite: two full
four-key rows and one partial row. -/
def layoutTen : List (List JVal) :=
  [[cellX, cellX, cellX, cellX], [cellX, cellX, cellX, cellX],
   [cellDash, cellX, cellX, cellDash]]

/-- One-key layout. -/
def layoutOne : List (List JVal) := [[cellX]]

/-- The invalid keymap of the test suite: one layer supplying 2 bindings
against the ten-active-cell layout. -/
def mismatchKeymap : String :=
  "\n/ \x7b\n    keymap \x7b\n        BASE \x7b\n            bindings = <\n                &kp A &kp B  // Only 2 bindings, but layout expects 10\n            >;\n        \x7d;\n    \x7d;\n\x7d;\n"

/-- Count of active cells of a layout matrix. -/
def activeCount (matrix : List (List JVal)) : Nat :=
  (matrix.map (fun row => row.countP cellIsX)).sum

/-- C1: the claim states that a binding count differing from the active
cell count makes align_keymap_with_layout fail and write nothing.  On
the test suite's own mismatch fixture (2 bindings, 10 active cells) the
run instead succeeds and produces output: the source performs no count
validation. -/
theorem binding_count_mismatch_run_succeeds :
    extract_all_layers mismatchKeymap.toList =
      [("BASE".toList, ["&kp A".toList, "&kp B".toList])] ∧
    activeCount layoutTen = 10 ∧
    (alignOut (alignContent mismatchKeymap.toList layoutTen 2)).isSome = true := by
  refine ⟨by decide, by decide, ?_⟩
  decide

/-- C2: the claim states that the tokenizer groups the input with a
nested behavior parameter into the single binding list; the source's
MULTI_PARAM_BEHAVIORS set does not contain the lt behavior, so the
standard rule stops at the nested sigil and two bindings come out. -/
theorem nested_behavior_lt_gives_two_bindings :
    extract_bindings_from_content "&lt 1 &caps_word".toList =
      ["&lt 1".toList, "&caps_word".toList] := by decide

/-- A keymap whose layer carries a display-name property before its
bindings, as in the repository's display-name tests. -/
def displayFirstKeymap : String :=
  "/ \x7b\n    keymap \x7b\n        BASE \x7b\n            display-name = \"Base\";\n            bindings = <&kp A>;\n        \x7d;\n    \x7d;\n\x7d;\n"

/-- The same keymap with the display-name property after the bindings. -/
def displayAfterKeymap : String :=
  "/ \x7b\n    keymap \x7b\n        BASE \x7b\n            bindings = <&kp A>;\n            display-name = \"Base\";\n        \x7d;\n    \x7d;\n\x7d;\n"

/-- C3: the claim states that the extractor returns the display-name
text with the layer and the renderer re-emits it.  The source's layer
pattern requires the bindings property to follow the opening brace
immediately (up to whitespace), so a layer whose block starts with
display-name is not extracted at all; with display-name after the
bindings the layer is extracted without the label and the rendered
output contains no display-name line. -/
theorem display_name_dropped :
    containsSub "display-name".toList displayFirstKeymap.toList = true ∧
    extract_all_layers displayFirstKeymap.toList = [] ∧
    extract_all_layers displayAfterKeymap.toList =
      [("BASE".toList, ["&kp A".toList])] ∧
    ((alignOut (alignContent displayAfterKeymap.toList layoutOne 2)).map
      (containsSub "display-name".toList)) = some false := by
  refine ⟨by decide, by decide, by decide, ?_⟩
  decide

/-- Keymap whose single binding carries a literal opening brace as a
parameter token. -/
def braceKeymap : String :=
  "/ \x7b\n    keymap \x7b\n        a \x7b\n            bindings = <&none \x7b >;\n        \x7d;\n    \x7d;\n\x7d;\n"

/-- The output the first run writes for braceKeymap. -/
def braceKeymapOut : String :=
  "/ \x7b\n    keymap \x7b\n        compatible = \"zmk,keymap\";\n        a \x7b\n            bindings = <\n   &none \x7b\n            >;\n        \x7d;\n    \x7d;\n"

/-- C4: the claim states the whole pipeline is idempotent.  On a keymap
whose binding tokens contain an unbalanced opening brace the first run
succeeds, but its own output never returns the brace count to zero, so
the second run aborts without finding the section end instead of
reproducing the output. -/
theorem realign_of_output_fails_on_brace_binding :
    alignOut (alignContent braceKeymap.toList layoutOne 2) = some braceKeymapOut.toList ∧
    alignErr (alignContent braceKeymapOut.toList layoutOne 2) = some .noKeymapEnd := by
  constructor
  · decide
  · decide

/-- C8: the claim states any truthy non-dash marker counts as active, in
particular the number 1 behaves as the string X.  The source compares
cells with the string X only, so a cell holding the number 1 (or the
boolean true, as in the repository's own test layouts) places no
binding. -/
theorem numeric_cell_marker_not_active :
    cellIsX (JVal.jnum 1) = false ∧
    cellIsX (JVal.jbool true) = false ∧
    structLayer ["&kp A".toList] [[JVal.jnum 1]] = [[none]] ∧
    structLayer ["&kp A".toList] [[cellX]] = [[some "&kp A".toList]] := by decide

/-- Placed bindings of a grid in row-major order. -/
def placedCells (grid : List (List (Option (List Char)))) : List (List Char) :=
  (grid.map (fun row => row.filterMap id)).flatten

theorem placeRow_spec (bindings : List (List Char)) :
    ∀ (cells : List JVal) (idx : Nat), idx ≤ bindings.length →
      (placeRow bindings cells idx).2 =
        min (idx + cells.countP cellIsX) bindings.length ∧
      (placeRow bindings cells idx).1.filterMap id =
        (bindings.drop idx).take ((placeRow bindings cells idx).2 - idx) := by
  intro cells
  induction cells with
  | nil =>
    intro idx h
    simp [placeRow]
    omega
  | cons cell cells ih =>
    intro idx h
    simp only [placeRow]
    split
    · split
      · rename_i hcell hscrut b hb
        have hlt : idx < bindings.length := (List.getElem?_eq_some.mp hb).1
        obtain ⟨h1, h2⟩ := ih (idx + 1) (by omega)
        have hdrop : bindings.drop idx = b :: bindings.drop (idx + 1) := by
          rw [List.drop_eq_getElem_cons hlt]
          obtain ⟨h3, h4⟩ := List.getElem?_eq_some.mp hb
          rw [h4]
        refine ⟨?_, ?_⟩
        · show (placeRow bindings cells (idx + 1)).2 = _
          rw [h1]
          simp [List.countP_cons, hcell]
          omega
        · show List.filterMap id (some b :: (placeRow bindings cells (idx + 1)).1) =
            List.take ((placeRow bindings cells (idx + 1)).2 - idx) (List.drop idx bindings)
          have hcons : List.filterMap id (some b :: (placeRow bindings cells (idx + 1)).1) =
              b :: List.filterMap id (placeRow bindings cells (idx + 1)).1 := rfl
          rw [hcons, h2, hdrop]
          have hge : idx + 1 ≤ (placeRow bindings cells (idx + 1)).2 := by
            rw [h1]; omega
          have hsub : (placeRow bindings cells (idx + 1)).2 - idx =
              ((placeRow bindings cells (idx + 1)).2 - (idx + 1)) + 1 := by omega
          rw [hsub, List.take_succ_cons]
      · rename_i hcell hscrut hb
        have hge : bindings.length ≤ idx := by
          rcases Nat.lt_or_ge idx bindings.length with hc | hc
          · rw [List.getElem?_eq_getElem hc] at hb
            cases hb
          · exact hc
        obtain ⟨h1, h2⟩ := ih idx h
        refine ⟨?_, ?_⟩
        · show (placeRow bindings cells idx).2 = _
          rw [h1]
          simp [List.countP_cons, hcell]
          omega
        · show List.filterMap id (none :: (placeRow bindings cells idx).1) =
            List.take ((placeRow bindings cells idx).2 - idx) (List.drop idx bindings)
          have hcons : List.filterMap id (none :: (placeRow bindings cells idx).1) =
              List.filterMap id (placeRow bindings cells idx).1 := rfl
          rw [hcons, h2]
    · rename_i hcell
      obtain ⟨h1, h2⟩ := ih idx h
      refine ⟨?_, ?_⟩
      · show (placeRow bindings cells idx).2 = _
        rw [h1]
        simp [List.countP_cons, hcell]
      · show List.filterMap id (none :: (placeRow bindings cells idx).1) =
          List.take ((placeRow bindings cells idx).2 - idx) (List.drop idx bindings)
        have hcons : List.filterMap id (none :: (placeRow bindings cells idx).1) =
            List.filterMap id (placeRow bindings cells idx).1 := rfl
        rw [hcons, h2]

/-- Unfolding of placedCells over a leading row. -/
theorem placedCells_cons (r : List (Option (List Char)))
    (g : List (List (Option (List Char)))) :
    placedCells (r :: g) = r.filterMap id ++ placedCells g := by
  simp [placedCells]

theorem placeRows_spec (bindings : List (List Char)) :
    ∀ (rows : List (List JVal)) (idx : Nat), idx ≤ bindings.length →
      (placeRows bindings rows idx).2 =
        min (idx + activeCount rows) bindings.length ∧
      placedCells (placeRows bindings rows idx).1 =
        (bindings.drop idx).take ((placeRows bindings rows idx).2 - idx) := by
  intro rows
  induction rows with
  | nil =>
    intro idx h
    simp [placeRows, placedCells, activeCount]
    omega
  | cons row rows ih =>
    intro idx h
    simp only [placeRows]
    obtain ⟨r1, r2⟩ := placeRow_spec bindings row idx h
    have hmid1 : idx ≤ (placeRow bindings row idx).2 := by rw [r1]; omega
    have hmid2 : (placeRow bindings row idx).2 ≤ bindings.length := by rw [r1]; omega
    obtain ⟨h1, h2⟩ := ih (placeRow bindings row idx).2 hmid2
    have hfin1 : (placeRow bindings row idx).2 ≤
        (placeRows bindings rows (placeRow bindings row idx).2).2 := by
      rw [h1]; omega
    refine ⟨?_, ?_⟩
    · rw [h1, r1]
      simp only [activeCount, List.map_cons, List.sum_cons]
      omega
    · show placedCells ((placeRow bindings row idx).1 ::
          (placeRows bindings rows (placeRow bindings row idx).2).1) = _
      rw [placedCells_cons, r2, h2]
      have e1 : bindings.drop (placeRow bindings row idx).2 =
          (bindings.drop idx).drop ((placeRow bindings row idx).2 - idx) := by
        rw [List.drop_drop]
        congr 1
        omega
      rw [e1, ← List.take_add]
      congr 1
      omega

/-- C6: for every layer and layout matrix, build_layer_structure is the
per-layer structLayer map; the grid's placed cells are exactly the first
min(bindings supplied, active cells) bindings in source order (hence no
binding is reused and none is consumed beyond the active cells), and
the number of placed cells is exactly that minimum; the builder is a
total function and never fails on a count mismatch. -/
theorem build_layer_structure_min_take :
    ∀ (layers : List (List Char × List (List Char))) (matrix : List (List JVal)),
      build_layer_structure layers matrix =
        layers.map (fun p => (p.1, structLayer p.2 matrix)) ∧
      ∀ bindings : List (List Char),
        placedCells (structLayer bindings matrix) =
          bindings.take (min bindings.length (activeCount matrix)) ∧
        (placedCells (structLayer bindings matrix)).length =
          min bindings.length (activeCount matrix) := by
  intro layers matrix
  refine ⟨rfl, ?_⟩
  intro bindings
  obtain ⟨h1, h2⟩ := placeRows_spec bindings matrix 0 (by omega)
  have hmain : placedCells (structLayer bindings matrix) =
      bindings.take (min bindings.length (activeCount matrix)) := by
    unfold structLayer
    rw [h2, h1]
    simp only [List.drop_zero, Nat.zero_add, Nat.sub_zero]
    congr 1
    omega
  refine ⟨hmain, ?_⟩
  rw [hmain]
  simp only [List.length_take]
  omega

/-- The placed binding length at column j of one structured row; absent
cells and rows not reaching j contribute the neutral 0. -/
def rowContrib (row : List (Option (List Char))) (j : Nat) : Nat :=
  match row[j]? with
  | some (some b) => b.length
  | _ => 0

/-- Maximum over one grid's rows of the placed binding length at
column j. -/
def gridMax (grid : List (List (Option (List Char)))) (j : Nat) : Nat :=
  (grid.map (fun row => rowContrib row j)).foldr max 0

/-- The spec's width formula core: maximum placed binding length at
column j across every layer's grid, 0 for a column with no placed
binding anywhere. -/
def colMax (structured : List (List Char × List (List (Option (List Char)))))
    (j : Nat) : Nat :=
  (structured.map (fun p => gridMax p.2 j)).foldr max 0

theorem updateRow_spec :
    ∀ (row : List (Option (List Char))) (ws : List Nat) (col : Nat) (ws2 : List Nat),
      updateRow ws row col = .ok ws2 →
      ws2.length = ws.length ∧
      ∀ j : Nat, ws2[j]? =
        if j < col then ws[j]?
        else (ws[j]?).map (fun w => max w (rowContrib row (j - col))) := by
  intro row
  induction row with
  | nil =>
    intro ws col ws2 h
    simp [updateRow] at h
    subst h
    refine ⟨rfl, ?_⟩
    intro j
    split
    · rfl
    · simp [rowContrib]
  | cons cell rest ih =>
    intro ws col ws2 h
    match cell with
    | none =>
      simp only [updateRow] at h
      obtain ⟨hlen, hget⟩ := ih ws (col + 1) ws2 h
      refine ⟨hlen, ?_⟩
      intro j
      rcases Nat.lt_trichotomy j col with hj | hj | hj
      · rw [hget j, if_pos (by omega), if_pos hj]
      · subst hj
        rw [hget j, if_pos (by omega), if_neg (by omega)]
        have : rowContrib (none :: rest) 0 = 0 := by simp [rowContrib]
        rw [Nat.sub_self, this]
        cases ws[j]? <;> simp
      · rw [hget j, if_neg (by omega), if_neg (by omega)]
        have : rowContrib (none :: rest) (j - col) = rowContrib rest (j - (col + 1)) := by
          have hj1 : j - col = (j - (col + 1)) + 1 := by omega
          simp [rowContrib, hj1]
        rw [this]
    | some b =>
      simp only [updateRow] at h
      split at h
      · cases h
      · rename_i w hw
        obtain ⟨hlen, hget⟩ := ih (ws.set col (max w b.length)) (col + 1) ws2 h
        have hclen : col < ws.length := by
          rcases Nat.lt_or_ge col ws.length with hc | hc
          · exact hc
          · rw [List.getElem?_eq_none hc] at hw
            cases hw
        refine ⟨by rw [hlen, List.length_set], ?_⟩
        intro j
        rcases Nat.lt_trichotomy j col with hj | hj | hj
        · rw [hget j, if_pos (by omega), if_pos hj, List.getElem?_set_ne (by omega)]
        · subst hj
          rw [hget j, if_pos (by omega), if_neg (by omega)]
          rw [List.getElem?_set_self', hw]
          have : rowContrib (some b :: rest) 0 = b.length := by simp [rowContrib]
          rw [Nat.sub_self, this]
          rfl
        · rw [hget j, if_neg (by omega), if_neg (by omega),
            List.getElem?_set_ne (by omega)]
          have : rowContrib (some b :: rest) (j - col) = rowContrib rest (j - (col + 1)) := by
            have hj1 : j - col = (j - (col + 1)) + 1 := by omega
            simp [rowContrib, hj1]
          rw [this]

theorem foldrMaxAppend (A B : List Nat) :
    (A ++ B).foldr max 0 = max (A.foldr max 0) (B.foldr max 0) := by
  induction A with
  | nil => simp
  | cons a A ih => simp [ih, Nat.max_assoc]

theorem updateGrid_spec :
    ∀ (grid : List (List (Option (List Char)))) (ws ws2 : List Nat),
      updateGrid ws grid = .ok ws2 →
      ws2.length = ws.length ∧
      ∀ j : Nat, ws2[j]? = (ws[j]?).map (fun w => max w (gridMax grid j)) := by
  intro grid
  induction grid with
  | nil =>
    intro ws ws2 h
    simp [updateGrid] at h
    subst h
    refine ⟨rfl, ?_⟩
    intro j
    have : gridMax [] j = 0 := by simp [gridMax]
    rw [this]
    cases ws[j]? <;> simp
  | cons row rows ih =>
    intro ws ws2 h
    simp only [updateGrid] at h
    split at h
    · cases h
    · rename_i wsm hwsm
      obtain ⟨hlen1, hget1⟩ := updateRow_spec row ws 0 wsm hwsm
      obtain ⟨hlen2, hget2⟩ := ih wsm ws2 h
      refine ⟨by rw [hlen2, hlen1], ?_⟩
      intro j
      rw [hget2 j, hget1 j, if_neg (by omega)]
      have : gridMax (row :: rows) j = max (rowContrib row j) (gridMax rows j) := by
        simp [gridMax]
      rw [this, Nat.sub_zero]
      cases ws[j]? <;> simp [Nat.max_assoc]

theorem updateLayers_spec :
    ∀ (structured : List (List Char × List (List (Option (List Char)))))
      (ws ws2 : List Nat),
      updateLayers ws structured = .ok ws2 →
      ws2.length = ws.length ∧
      ∀ j : Nat, ws2[j]? = (ws[j]?).map (fun w => max w (colMax structured j)) := by
  intro structured
  induction structured with
  | nil =>
    intro ws ws2 h
    simp [updateLayers] at h
    subst h
    refine ⟨rfl, ?_⟩
    intro j
    have : colMax [] j = 0 := by simp [colMax]
    rw [this]
    cases ws[j]? <;> simp
  | cons p ps ih =>
    intro ws ws2 h
    simp only [updateLayers] at h
    split at h
    · cases h
    · rename_i wsm hwsm
      obtain ⟨hlen1, hget1⟩ := updateGrid_spec p.2 ws wsm hwsm
      obtain ⟨hlen2, hget2⟩ := ih wsm ws2 h
      refine ⟨by rw [hlen2, hlen1], ?_⟩
      intro j
      rw [hget2 j, hget1 j]
      have : colMax (p :: ps) j = max (gridMax p.2 j) (colMax ps j) := by
        simp [colMax]
      rw [this]
      cases ws[j]? <;> simp [Nat.max_assoc]

/-- C7: whenever calculate_column_widths succeeds, the width table has
one entry per column of the first layout row, and each entry is exactly
the maximum placed binding length of that column across all layers plus
the padding constant; a column with no placed binding gets exactly
0 + padding. -/
theorem calculate_column_widths_exact
    (structured : List (List Char × List (List (Option (List Char)))))
    (matrix : List (List JVal)) (padding : Nat) (ws : List Nat)
    (h : calculate_column_widths structured matrix padding = .ok ws) :
    ws.length = numColumns matrix ∧
    ∀ j : Nat, j < numColumns matrix →
      ws[j]? = some (colMax structured j + padding) := by
  unfold calculate_column_widths at h
  split at h
  · cases h
  · rename_i wsm hwsm
    cases h
    obtain ⟨hlen, hget⟩ := updateLayers_spec structured
      (List.replicate (numColumns matrix) 0) wsm hwsm
    refine ⟨by simp [hlen], ?_⟩
    intro j hj
    rw [List.getElem?_map, hget j, List.getElem?_replicate, if_pos hj]
    simp

/-- Concrete grids for the C7 witness: one layer, one row, a placed
five-character binding and an absent cell over a two-column layout. -/
def widthWitnessGrids : List (List Char × List (List (Option (List Char)))) :=
  [("L".toList, [[some "&kp A".toList, none]])]

/-- Two-column layout for the C7 witness. -/
def widthWitnessLayout : List (List JVal) := [[cellX, cellX]]

theorem calculate_column_widths_exact_witness :
    calculate_column_widths widthWitnessGrids widthWitnessLayout 2 = .ok [7, 2] ∧
    ([7, 2].length = numColumns widthWitnessLayout ∧
      ∀ j : Nat, j < numColumns widthWitnessLayout →
        [7, 2][j]? = some (colMax widthWitnessGrids j + 2)) :=
  ⟨rfl,
   calculate_column_widths_exact widthWitnessGrids widthWitnessLayout 2 [7, 2] rfl⟩

/-- Jagged layout whose second row is longer than the first. -/
def jaggedLonger : List (List JVal) := [[cellX], [cellX, cellX]]

/-- Three-binding layer used with the jagged layouts. -/
def jaggedLayer : List (List Char × List (List Char)) :=
  [("L".toList, ["&a".toList, "&b".toList, "&c".toList])]

/-- C9 counterexample: on a matrix whose second row is longer than the
first and places a binding beyond the first row's width, the width
calculation hits the out-of-range column (the Python IndexError) instead
of completing. -/
theorem jagged_longer_row_width_error :
    calculate_column_widths (build_layer_structure jaggedLayer jaggedLonger)
      jaggedLonger 2 = .error () := rfl

theorem placeRow_length (bindings : List (List Char)) :
    ∀ (cells : List JVal) (idx : Nat),
      (placeRow bindings cells idx).1.length = cells.length := by
  intro cells
  induction cells with
  | nil => intro idx; simp [placeRow]
  | cons cell cells ih =>
    intro idx
    simp only [placeRow]
    split
    · split
      · show (some _ :: (placeRow bindings cells (idx + 1)).1).length = _
        simp [ih]
      · show (none :: (placeRow bindings cells idx).1).length = _
        simp [ih]
    · show (none :: (placeRow bindings cells idx).1).length = _
      simp [ih]

theorem placeRows_row_length (bindings : List (List Char)) :
    ∀ (rows : List (List JVal)) (idx : Nat) (g : List (Option (List Char))),
      g ∈ (placeRows bindings rows idx).1 → ∃ r ∈ rows, g.length = r.length := by
  intro rows
  induction rows with
  | nil => intro idx g hg; simp [placeRows] at hg
  | cons row rows ih =>
    intro idx g hg
    simp only [placeRows] at hg
    rcases List.mem_cons.mp hg with hg | hg
    · exact ⟨row, List.mem_cons_self _ _, by rw [hg, placeRow_length]⟩
    · obtain ⟨r, hr, hlen⟩ := ih _ g hg
      exact ⟨r, List.mem_cons_of_mem _ hr, hlen⟩

theorem updateRow_ok :
    ∀ (row : List (Option (List Char))) (ws : List Nat) (col : Nat),
      col + row.length ≤ ws.length →
      ∃ ws2, updateRow ws row col = .ok ws2 ∧ ws2.length = ws.length := by
  intro row
  induction row with
  | nil => intro ws col h; exact ⟨ws, rfl, rfl⟩
  | cons cell rest ih =>
    intro ws col h
    match cell with
    | none =>
      simp only [updateRow]
      exact ih ws (col + 1) (by simp at h; omega)
    | some b =>
      have hc : col < ws.length := by simp at h; omega
      simp only [updateRow, List.getElem?_eq_getElem hc]
      obtain ⟨ws2, hok, hlen⟩ := ih (ws.set col (max ws[col] b.length)) (col + 1)
        (by simp [List.length_set] at h ⊢; omega)
      exact ⟨ws2, hok, by rw [hlen, List.length_set]⟩

theorem updateGrid_ok :
    ∀ (grid : List (List (Option (List Char)))) (ws : List Nat),
      (∀ row ∈ grid, row.length ≤ ws.length) →
      ∃ ws2, updateGrid ws grid = .ok ws2 ∧ ws2.length = ws.length := by
  intro grid
  induction grid with
  | nil => intro ws h; exact ⟨ws, rfl, rfl⟩
  | cons row rows ih =>
    intro ws h
    obtain ⟨wsm, hok1, hlen1⟩ := updateRow_ok row ws 0
      (by simpa using h row (List.mem_cons_self _ _))
    obtain ⟨ws2, hok2, hlen2⟩ := ih wsm
      (fun r hr => by rw [hlen1]; exact h r (List.mem_cons_of_mem _ hr))
    refine ⟨ws2, ?_, by rw [hlen2, hlen1]⟩
    simp only [updateGrid, hok1]
    exact hok2

theorem updateLayers_ok :
    ∀ (structured : List (List Char × List (List (Option (List Char)))))
      (ws : List Nat),
      (∀ p ∈ structured, ∀ row ∈ p.2, row.length ≤ ws.length) →
      ∃ ws2, updateLayers ws structured = .ok ws2 ∧ ws2.length = ws.length := by
  intro structured
  induction structured with
  | nil => intro ws h; exact ⟨ws, rfl, rfl⟩
  | cons p ps ih =>
    intro ws h
    obtain ⟨wsm, hok1, hlen1⟩ := updateGrid_ok p.2 ws
      (h p (List.mem_cons_self _ _))
    obtain ⟨ws2, hok2, hlen2⟩ := ih wsm
      (fun q hq r hr => by rw [hlen1]; exact h q (List.mem_cons_of_mem _ hq) r hr)
    refine ⟨ws2, ?_, by rw [hlen2, hlen1]⟩
    simp only [updateLayers, hok1]
    exact hok2

/-- C9 (amended): structure building completes on every jagged matrix;
width calculation completes whenever no row is longer than the first
row, each row still evaluated independently against its own cells.  A
later row longer than the first can make the width loop index a column
beyond the table and abort (see jagged_longer_row_width_error). -/
theorem jagged_rows_ok
    (layers : List (List Char × List (List Char)))
    (matrix : List (List JVal)) (padding : Nat)
    (h : ∀ row ∈ matrix, row.length ≤ numColumns matrix) :
    ∃ ws, calculate_column_widths (build_layer_structure layers matrix)
      matrix padding = .ok ws := by
  have hb : ∀ p ∈ build_layer_structure layers matrix, ∀ row ∈ p.2,
      row.length ≤ (List.replicate (numColumns matrix) 0).length := by
    intro p hp row hrow
    simp only [build_layer_structure, List.mem_map] at hp
    obtain ⟨q, hq, hpq⟩ := hp
    have hrow2 : row ∈ structLayer q.2 matrix := by
      rw [← hpq] at hrow
      exact hrow
    obtain ⟨r, hr, hlen⟩ := placeRows_row_length q.2 matrix 0 row hrow2
    rw [List.length_replicate, hlen]
    exact h r hr
  obtain ⟨ws2, hok, _⟩ :=
    updateLayers_ok (build_layer_structure layers matrix)
      (List.replicate (numColumns matrix) 0) hb
  refine ⟨ws2.map (· + padding), ?_⟩
  simp only [calculate_column_widths, hok]

/-- Jagged layout whose second row is shorter than the first. -/
def jaggedShorter : List (List JVal) := [[cellX, cellX], [cellX]]

theorem jagged_rows_ok_witness :
    (∀ row ∈ jaggedShorter, row.length ≤ numColumns jaggedShorter) ∧
    ∃ ws, calculate_column_widths (build_layer_structure jaggedLayer jaggedShorter)
      jaggedShorter 2 = .ok ws :=
  ⟨by decide, jagged_rows_ok jaggedLayer jaggedShorter 2 (by decide)⟩

theorem splitNl_ne_nil : ∀ s : List Char, splitNl s ≠ [] := by
  intro s
  cases s with
  | nil => simp [splitNl]
  | cons c cs =>
    simp only [splitNl]
    split
    · simp
    · split <;> simp

theorem joinNl_splitNl : ∀ s : List Char, joinNl (splitNl s) = s := by
  intro s
  induction s with
  | nil => rfl
  | cons c cs ih =>
    simp only [splitNl]
    split
    · rename_i hc
      obtain ⟨w, ws, hsplit⟩ : ∃ w ws, splitNl cs = w :: ws := by
        cases h : splitNl cs with
        | nil => exact absurd h (splitNl_ne_nil cs)
        | cons w ws => exact ⟨w, ws, rfl⟩
      rw [hsplit]
      have hjoin : joinNl ([] :: w :: ws) = '\n' :: joinNl (w :: ws) := rfl
      rw [hjoin, ← hsplit, ih, hc]
    · rename_i hc
      cases h : splitNl cs with
      | nil => exact absurd h (splitNl_ne_nil cs)
      | cons w ws =>
        simp only [h]
        cases ws with
        | nil =>
          have hjoin : joinNl [c :: w] = c :: w := rfl
          rw [hjoin]
          have hw : joinNl [w] = w := rfl
          rw [h, hw] at ih
          rw [ih]
        | cons w2 ws2 =>
          have hjoin : joinNl ((c :: w) :: w2 :: ws2) =
              c :: (w ++ '\n' :: joinNl (w2 :: ws2)) := rfl
          rw [hjoin]
          have hw : joinNl (w :: w2 :: ws2) = w ++ '\n' :: joinNl (w2 :: ws2) := rfl
          rw [h, hw] at ih
          rw [ih]

theorem joinNl_take_pre : ∀ (ls : List (List Char)) (k : Nat),
    joinNl (ls.take k) <+: joinNl ls := by
  intro ls
  induction ls with
  | nil => intro k; simp
  | cons w ws ih =>
    intro k
    cases k with
    | zero => exact ⟨joinNl (w :: ws), rfl⟩
    | succ k =>
      cases ws with
      | nil => exact ⟨[], by simp⟩
      | cons w2 ws2 =>
        simp only [List.take_succ_cons]
        cases hk : (w2 :: ws2).take k with
        | nil =>
          exact ⟨'\n' :: joinNl (w2 :: ws2), rfl⟩
        | cons v vs =>
          obtain ⟨t, ht⟩ := ih k
          rw [hk] at ht
          refine ⟨t, ?_⟩
          have h1 : joinNl (w :: v :: vs) = w ++ '\n' :: joinNl (v :: vs) := rfl
          have h2 : joinNl (w :: w2 :: ws2) = w ++ '\n' :: joinNl (w2 :: ws2) := rfl
          rw [h1, h2, ← ht]
          simp

theorem joinNl_drop_suf : ∀ (ls : List (List Char)) (k : Nat),
    joinNl (ls.drop k) <:+ joinNl ls := by
  intro ls
  induction ls with
  | nil => intro k; simp
  | cons w ws ih =>
    intro k
    cases k with
    | zero => exact ⟨[], by simp⟩
    | succ k =>
      simp only [List.drop_succ_cons]
      have hsuf : joinNl ws <:+ joinNl (w :: ws) := by
        cases ws with
        | nil => exact ⟨joinNl [w], by simp [joinNl]⟩
        | cons w2 ws2 => exact ⟨w ++ ['\n'], by simp [joinNl]⟩
      exact (ih k).trans hsuf

/-- C5: every successful run's output is exactly the join of the input
lines before the keymap opening line, a newline, the freshly generated
section, a newline, and the join of the input lines after the section's
closing line; the pre part is byte-for-byte a prefix of the input and
the post part byte-for-byte a suffix of the input. -/
theorem alignContent_frame (content : List Char) (layout : List (List JVal))
    (padding : Nat) (out : List Char)
    (h : alignContent content layout padding = .ok out) :
    ∃ s e sec,
      keymapStartIdx (splitNl content) = some s ∧
      keymapEndIdx (splitNl content) s = some e ∧
      out = joinNl ((splitNl content).take s) ++
        '\n' :: (sec ++ '\n' :: joinNl ((splitNl content).drop (e + 1))) ∧
      joinNl ((splitNl content).take s) <+: content ∧
      joinNl ((splitNl content).drop (e + 1)) <:+ content := by
  unfold alignContent at h
  dsimp only at h
  split at h
  · cases h
  · split at h
    · cases h
    · split at h
      · cases h
      · split at h
        · cases h
        · split at h
          · cases h
          · rename_i hne x1 widths hw x2 s hs x3 e he x4 sec hsec
            cases h
            refine ⟨s, e, sec, hs, he, rfl, ?_, ?_⟩
            · have hp := joinNl_take_pre (splitNl content) s
              rw [joinNl_splitNl] at hp
              exact hp
            · have hp := joinNl_drop_suf (splitNl content) (e + 1)
              rw [joinNl_splitNl] at hp
              exact hp

theorem alignContent_frame_witness :
    alignContent braceKeymap.toList layoutOne 2 = .ok braceKeymapOut.toList ∧
    ∃ s e sec,
      keymapStartIdx (splitNl braceKeymap.toList) = some s ∧
      keymapEndIdx (splitNl braceKeymap.toList) s = some e ∧
      braceKeymapOut.toList = joinNl ((splitNl braceKeymap.toList).take s) ++
        '\n' :: (sec ++ '\n' :: joinNl ((splitNl braceKeymap.toList).drop (e + 1))) ∧
      joinNl ((splitNl braceKeymap.toList).take s) <+: braceKeymap.toList ∧
      joinNl ((splitNl braceKeymap.toList).drop (e + 1)) <:+ braceKeymap.toList :=
  ⟨rfl, alignContent_frame braceKeymap.toList layoutOne 2 braceKeymapOut.toList rfl⟩

theorem rstripGtSemi_append_close (x : List Char) :
    rstripGtSemi (x ++ ">;".toList) = rstripGtSemi x := by
  simp [rstripGtSemi, List.dropWhile_cons]

theorem findBlockClose_append_close (cs : List Char) :
    findBlockClose (cs ++ ">;".toList) =
      (findBlockClose cs).map (· ++ ">;".toList) := by
  induction cs with
  | nil => rfl
  | cons c cs ih =>
    simp only [List.cons_append, findBlockClose, List.append_eq]
    cases cs with
    | nil =>
      have h1 : (([] : List Char) ++ ">;".toList).head? = some '>' := rfl
      rw [h1]
      simp [findBlockClose]
    | cons d cs2 =>
      by_cases hcond : c = '*' ∧ d = '/'
      · obtain ⟨hc, hd⟩ := hcond
        subst hc
        subst hd
        simp
      · have hL : ¬(c = '*' ∧ ((d :: cs2) ++ ">;".toList).head? = some '/') := by
          simp only [List.cons_append, List.head?_cons]
          intro hcc
          exact hcond ⟨hcc.1, by injection hcc.2⟩
        have hR : ¬(c = '*' ∧ (d :: cs2).head? = some '/') := by
          simp only [List.head?_cons]
          intro hcc
          exact hcond ⟨hcc.1, by injection hcc.2⟩
        rw [if_neg hL, if_neg hR]
        exact ih

theorem slcGo_append_close (l : List Char) :
    ∀ st : Nat, slcGo (l ++ ">;".toList) st = slcGo l st ++ ">;".toList ∨
      slcGo (l ++ ">;".toList) st = slcGo l st := by
  induction l with
  | nil =>
    intro st
    by_cases h2 : st = 2
    · subst h2
      right
      rfl
    · by_cases h1 : st = 1
      · subst h1
        left
        rfl
      · left
        simp only [List.nil_append, slcGo, if_neg h2, if_neg h1]
        rfl
  | cons c cs ih =>
    intro st
    simp only [List.cons_append, slcGo, List.append_eq]
    by_cases h2 : st = 2
    · simp only [if_pos h2]
      by_cases hc : c = '\n'
      · simp only [if_pos hc]
        rcases ih 0 with h | h
        · left; rw [h]; rfl
        · right; rw [h]
      · simp only [if_neg hc]
        exact ih 2
    · simp only [if_neg h2]
      by_cases h1 : st = 1
      · simp only [if_pos h1]
        by_cases hc : c = '/'
        · simp only [if_pos hc]
          exact ih 2
        · simp only [if_neg hc]
          rcases ih 0 with h | h
          · left; rw [h]; rfl
          · right; rw [h]
      · simp only [if_neg h1]
        by_cases hc : c = '/'
        · simp only [if_pos hc]
          exact ih 1
        · simp only [if_neg hc]
          rcases ih 0 with h | h
          · left; rw [h]; rfl
          · right; rw [h]

theorem sbcGo_append_close (l : List Char) :
    ∀ st : Nat, sbcGo (l ++ ">;".toList) st = sbcGo l st ++ ">;".toList ∨
      sbcGo (l ++ ">;".toList) st = sbcGo l st := by
  induction l with
  | nil =>
    intro st
    by_cases h3 : st = 3
    · subst h3; right; rfl
    · by_cases h2 : st = 2
      · subst h2; right; rfl
      · by_cases h1 : st = 1
        · subst h1; left; rfl
        · left
          show sbcGo ('>' :: ';' :: []) st = sbcGo [] st ++ '>' :: ';' :: []
          simp [sbcGo, h3, h2, h1]
  | cons c cs ih =>
    intro st
    simp only [List.cons_append, sbcGo, List.append_eq]
    by_cases h3 : st = 3
    · simp only [if_pos h3]
      by_cases hc : c = '/'
      · simp only [if_pos hc]; exact ih 0
      · simp only [if_neg hc]
        by_cases hs : c = '*'
        · simp only [if_pos hs]; exact ih 3
        · simp only [if_neg hs]; exact ih 2
    · simp only [if_neg h3]
      by_cases h2 : st = 2
      · simp only [if_pos h2]
        by_cases hs : c = '*'
        · simp only [if_pos hs]; exact ih 3
        · simp only [if_neg hs]; exact ih 2
      · simp only [if_neg h2]
        by_cases h1 : st = 1
        · simp only [if_pos h1]
          by_cases hs : c = '*'
          · simp only [if_pos hs]
            rw [findBlockClose_append_close]
            have hmap : (Option.map (· ++ ">;".toList) (findBlockClose cs)).isSome =
                (findBlockClose cs).isSome := by
              cases findBlockClose cs <;> rfl
            rw [hmap]
            by_cases hfb : (findBlockClose cs).isSome = true
            · simp only [if_pos hfb]
              exact ih 2
            · simp only [if_neg hfb]
              left
              simp
          · simp only [if_neg hs]
            by_cases hsl : c = '/'
            · simp only [if_pos hsl]
              rcases ih 1 with h | h
              · left; rw [h]; rfl
              · right; rw [h]
            · simp only [if_neg hsl]
              rcases ih 0 with h | h
              · left; rw [h]; rfl
              · right; rw [h]
        · simp only [if_neg h1]
          by_cases hsl : c = '/'
          · simp only [if_pos hsl]; exact ih 1
          · simp only [if_neg hsl]
            rcases ih 0 with h | h
            · left; rw [h]; rfl
            · right; rw [h]

theorem pyWordsAux_filterMap_close (l : List Char) :
    ∀ cur : List Char,
      (pyWordsAux cur (l ++ ">;".toList)).filterMap
        (fun t => if (rstripGtSemi t).isEmpty = true then none else some (rstripGtSemi t)) =
      (pyWordsAux cur l).filterMap
        (fun t => if (rstripGtSemi t).isEmpty = true then none else some (rstripGtSemi t)) := by
  induction l with
  | nil =>
    intro cur
    have h1 : pyWordsAux cur ([] ++ ">;".toList) = [(';' :: '>' :: cur).reverse] := rfl
    rw [h1]
    cases cur with
    | nil => rfl
    | cons a as =>
      have h2 : (';' :: '>' :: (a :: as)).reverse = (a :: as).reverse ++ ">;".toList := by
        simp
      rw [h2]
      have h3 : pyWordsAux (a :: as) [] = [(a :: as).reverse] := rfl
      rw [h3]
      simp only [List.filterMap_cons, List.filterMap_nil, rstripGtSemi_append_close]
  | cons c cs ih =>
    intro cur
    simp only [List.cons_append, pyWordsAux, List.append_eq]
    by_cases hsp : isSpaceChar c = true
    · simp only [if_pos hsp]
      by_cases hcur : cur.isEmpty = true
      · simp only [if_pos hcur]
        exact ih []
      · simp only [if_neg hcur, List.filterMap_cons, List.append_eq]
        rw [ih []]
    · simp only [if_neg hsp]
      exact ih (c :: cur)

theorem tokenize_append_close (content : List Char) :
    tokenize (content ++ ">;".toList) = tokenize content := by
  unfold tokenize pyWords
  exact pyWordsAux_filterMap_close content []

theorem extract_bindings_append_close (cont : List Char) :
    extract_bindings_from_content (cont ++ ">;".toList) =
      extract_bindings_from_content cont := by
  by_cases hC : cont.isEmpty = true
  · have hnil : cont = [] := by
      cases cont with
      | nil => rfl
      | cons a as => simp at hC
    subst hnil
    rfl
  · unfold extract_bindings_from_content
    have hCt : (cont ++ ">;".toList).isEmpty = false := by
      cases cont with
      | nil => simp at hC
      | cons a as => rfl
    rw [if_neg (by rw [hCt]; simp), if_neg (by rw [Bool.not_eq_true] at hC; rw [hC]; simp)]
    rcases slcGo_append_close cont 0 with h1 | h1
    · have e1 : stripLineComments (cont ++ ">;".toList) =
          stripLineComments cont ++ ">;".toList := h1
      rw [e1]
      rcases sbcGo_append_close (stripLineComments cont) 0 with h2 | h2
      · have e2 : stripBlockComments (stripLineComments cont ++ ">;".toList) =
            stripBlockComments (stripLineComments cont) ++ ">;".toList := h2
        rw [e2, tokenize_append_close]
      · have e2 : stripBlockComments (stripLineComments cont ++ ">;".toList) =
            stripBlockComments (stripLineComments cont) := h2
        rw [e2]
    · have e1 : stripLineComments (cont ++ ">;".toList) = stripLineComments cont := h1
      rw [e1]

/-- C10: every whitespace-separated token is right-stripped of trailing
greater-than and semicolon characters and dropped if it becomes empty;
consequently appending the closing text of a bindings block to any
content changes nothing in the extracted binding list, and a final
parameter written with the closing glued on is emitted bare. -/
theorem trailing_close_stripped :
    (∀ cont : List Char,
      extract_bindings_from_content (cont ++ ">;".toList) =
        extract_bindings_from_content cont) ∧
    (∀ x : List Char, rstripGtSemi (x ++ ">;".toList) = rstripGtSemi x) ∧
    extract_bindings_from_content "&kp A>;".toList = ["&kp A".toList] ∧
    rstripGtSemi "A>;".toList = "A".toList :=
  ⟨extract_bindings_append_close, rstripGtSemi_append_close, by decide, by decide⟩
